import Mathlib

/-!
Verification of the TC-bot media relay and idle-lifecycle core.

The model is a shallow embedding of two pieces of `src/core/playerClient.js`
(`src/unnamed/part_001`):

* the chunked download loop inside `createStream` (lines 169-283): the async
  task that pulls the resource either in 5 MiB ranged requests (when the
  content length is known) or in one unranged request, writes the bytes into
  a PassThrough sink honouring backpressure, falls back to a single unranged
  request when a ranged response body is empty, and destroys the sink on a
  non-ok response;
* the `noDataTimer` callback (lines 176-181) and the idle-timeout handler
  installed by `setupIdleTimeout` (lines 33-84).

The network and the sink are abstracted by an environment `Env` giving each
response (status plus the list of byte-chunk sizes its body yields), which
writes report backpressure, and the point (if any) at which the consumer
destroys the sink.  Each run produces the full trace of observable events.
-/

/-- Fixed chunk size of the ranged download loop (`CHUNK_SIZE`, line 157). -/
def CHUNK_SIZE : Nat := 5 * 1024 * 1024

/-- No-progress deadline of the `noDataTimer` in milliseconds (line 181). -/
def NO_DATA_TIMEOUT : Nat := 8000

/-- Idle timeout `AUDIO.IDLE_TIMEOUT` in milliseconds (`constants.js`). -/
def IDLE_TIMEOUT : Nat := 300000

/-- Observable events of one `createStream` download task.  `request none` is
an unranged fetch of the whole resource; `request (some (s, e))` carries the
`range=s-e` parameter.  `write off len accepted` is one `pass.write` call for
bytes believed to live at resource offsets `[off, off+len)`; `accepted` is the
boolean returned by `pass.write`. -/
inductive Event where
  | request : Option (Nat × Nat) → Event
  | read : Nat → Event
  | write : Nat → Nat → Bool → Event
  | drained : Event
  | setTimer : Event
  | clearTimer : Event
  | endSink : Event
  | destroySink : Event
  deriving DecidableEq, Repr

/-- Final state of the download task.  `complete` is `pass.end()`, `failed`
is `pass.destroy(err)` from the catch block, `blocked` is the task suspended
forever awaiting a `drain` that cannot come (the consumer destroyed the
sink), `fuelOut` is exhaustion of the step budget of the interpreter. -/
inductive Status where
  | complete
  | failed
  | blocked
  | fuelOut
  deriving DecidableEq, Repr

/-- One network response: its ok-status and the byte-chunk sizes its body
yields, in order. -/
structure Response where
  ok : Bool
  body : List Nat
  deriving Repr

/-- Total number of bytes a response body yields (the code's `wrote`). -/
def wroteOf (r : Response) : Nat := r.body.sum

/-- Environment of one transfer: the response to the i-th ranged request, the
response to an unranged request, which writes saturate the sink, and the
write index from which the consumer has destroyed the sink (writes from that
index on return `false` and `drain` never fires). -/
structure Env where
  ranged : Nat → Response
  unranged : Response
  saturates : Nat → Bool
  destroyedFrom : Option Nat

/-- Whether the sink is already destroyed by the consumer at write index `w`. -/
def Env.destroyedAt (env : Env) (w : Nat) : Bool :=
  match env.destroyedFrom with
  | some d => decide (d ≤ w)
  | none => false

/-- Result of streaming one response body into the sink. -/
structure BodyResult where
  trace : List Event
  blocked : Bool
  wIdx : Nat
  bytes : Nat
  wrote : Nat
  deriving Repr

/-- The `for await (const chunk of resp.body)` loop (lines 237-243): read each
chunk, count it into `bytesWritten` and `wrote`, write it into the sink, and
await `drain` whenever `pass.write` returned `false`.  A write on a destroyed
sink returns `false` and its `drain` never fires, so the task blocks there. -/
def relayBody (env : Env) : List Nat → Nat → Nat → Nat → Nat → BodyResult
  | [], _, wIdx, bw, wrote => ⟨[], false, wIdx, bw, wrote⟩
  | c :: rest, off, wIdx, bw, wrote =>
    if env.destroyedAt wIdx then
      ⟨[Event.read c, Event.write off c false], true, wIdx + 1, bw + c, wrote + c⟩
    else if env.saturates wIdx then
      let r := relayBody env rest (off + c) (wIdx + 1) (bw + c) (wrote + c)
      ⟨Event.read c :: Event.write off c false :: Event.drained :: r.trace,
        r.blocked, r.wIdx, r.bytes, r.wrote⟩
    else
      let r := relayBody env rest (off + c) (wIdx + 1) (bw + c) (wrote + c)
      ⟨Event.read c :: Event.write off c true :: r.trace,
        r.blocked, r.wIdx, r.bytes, r.wrote⟩

/-- Final observable outcome of a download task. -/
structure RunResult where
  trace : List Event
  status : Status
  cursor : Nat
  bytes : Nat
  deriving Repr

/-- The ranged `while (start < total)` loop of `createStream` (lines 218-274):
request `[start, min(start + CHUNK_SIZE - 1, total - 1)]`; on a non-ok
response throw (caught below: destroy the sink); stream the body; if it
yielded zero bytes fall back to one unranged request of the whole resource,
relay that body, clear the timer and end the sink; otherwise advance the
cursor past the chunk and continue.  On loop exit clear the timer and end the
sink.  `fuel` bounds the number of iterations of the interpreter only. -/
def chunkLoop (env : Env) (total : Nat) : Nat → Nat → Nat → Nat → Nat → RunResult
  | 0, start, _, _, bw => ⟨[], Status.fuelOut, start, bw⟩
  | fuel + 1, start, reqIdx, wIdx, bw =>
    if start < total then
      let e := min (start + CHUNK_SIZE - 1) (total - 1)
      if (env.ranged reqIdx).ok then
        let b := relayBody env (env.ranged reqIdx).body start wIdx bw 0
        if b.blocked then
          ⟨Event.request (some (start, e)) :: b.trace, Status.blocked, start, b.bytes⟩
        else if b.wrote = 0 then
          if env.unranged.ok then
            let fb := relayBody env env.unranged.body 0 b.wIdx b.bytes 0
            if fb.blocked then
              ⟨Event.request (some (start, e)) :: (b.trace ++ Event.request none :: fb.trace),
                Status.blocked, start, fb.bytes⟩
            else
              ⟨Event.request (some (start, e)) ::
                  (b.trace ++ Event.request none :: (fb.trace ++ [Event.clearTimer, Event.endSink])),
                Status.complete, start, fb.bytes⟩
          else
            ⟨Event.request (some (start, e)) :: (b.trace ++ [Event.request none, Event.destroySink]),
              Status.failed, start, b.bytes⟩
        else
          let r := chunkLoop env total fuel (e + 1) (reqIdx + 1) b.wIdx b.bytes
          ⟨Event.request (some (start, e)) :: (b.trace ++ r.trace), r.status, r.cursor, r.bytes⟩
      else
        ⟨[Event.request (some (start, e)), Event.destroySink], Status.failed, start, bw⟩
    else
      ⟨[Event.clearTimer, Event.endSink], Status.complete, start, bw⟩

/-- The whole download task of `createStream` (lines 169-283) with an explicit
iteration budget: arm the no-data timer, then either do one unranged request
(`total = 0` models an unknown content length, `const total = contentLength
|| 0`) relaying its whole body, or run the ranged chunk loop. -/
def createStreamFuel (env : Env) (total fuel : Nat) : RunResult :=
  if total = 0 then
    if env.unranged.ok then
      let b := relayBody env env.unranged.body 0 0 0 0
      if b.blocked then
        ⟨Event.setTimer :: Event.request none :: b.trace, Status.blocked, 0, b.bytes⟩
      else
        ⟨Event.setTimer :: Event.request none :: (b.trace ++ [Event.clearTimer, Event.endSink]),
          Status.complete, 0, b.bytes⟩
    else
      ⟨[Event.setTimer, Event.request none, Event.destroySink], Status.failed, 0, 0⟩
  else
    let r := chunkLoop env total fuel 0 0 0 0
    ⟨Event.setTimer :: r.trace, r.status, r.cursor, r.bytes⟩

/-- The download task with enough fuel for any transfer of length `total`
(the cursor strictly increases each iteration, so `total + 1` iterations can
never be exhausted). -/
def createStream (env : Env) (total : Nat) : RunResult :=
  createStreamFuel env total (total + 1)

/-! Trace observations. -/

/-- The ranges of the ranged requests of a trace, in order. -/
def rangedRequests : List Event → List (Nat × Nat)
  | [] => []
  | Event.request (some r) :: rest => r :: rangedRequests rest
  | _ :: rest => rangedRequests rest

/-- Number of ranged requests of a trace. -/
def rangedCount (tr : List Event) : Nat := (rangedRequests tr).length

/-- Number of unranged (whole-resource) requests of a trace. -/
def unrangedCount : List Event → Nat
  | [] => 0
  | Event.request none :: rest => unrangedCount rest + 1
  | _ :: rest => unrangedCount rest

/-- All requests of a trace, in order (`none` = unranged). -/
def requestsOf : List Event → List (Option (Nat × Nat))
  | [] => []
  | Event.request r :: rest => r :: requestsOf rest
  | _ :: rest => requestsOf rest

/-- The writes of a trace as `(resource offset, length)` pairs, in order. -/
def sinkWrites : List Event → List (Nat × Nat)
  | [] => []
  | Event.write off len _ :: rest => (off, len) :: sinkWrites rest
  | _ :: rest => sinkWrites rest

/-- Number of write events of a trace. -/
def writeCount : List Event → Nat
  | [] => 0
  | Event.write _ _ _ :: rest => writeCount rest + 1
  | _ :: rest => writeCount rest

/-- Number of timer-arming events of a trace. -/
def setTimerCount : List Event → Nat
  | [] => 0
  | Event.setTimer :: rest => setTimerCount rest + 1
  | _ :: rest => setTimerCount rest

/-- Number of `clearTimeout(noDataTimer)` events of a trace. -/
def clearTimerCount : List Event → Nat
  | [] => 0
  | Event.clearTimer :: rest => clearTimerCount rest + 1
  | _ :: rest => clearTimerCount rest

/-- Number of `pass.destroy` events of a trace. -/
def destroySinkCount : List Event → Nat
  | [] => 0
  | Event.destroySink :: rest => destroySinkCount rest + 1
  | _ :: rest => destroySinkCount rest

/-- Total length of a list of writes. -/
def sumLens (ws : List (Nat × Nat)) : Nat := (ws.map Prod.snd).sum

/-- Whether a list of `(offset, length)` writes tiles the byte range starting
at `o` with no gap and no overlap: each write starts exactly where the
previous one ended. -/
def consecutiveFrom : Nat → List (Nat × Nat) → Bool
  | _, [] => true
  | o, (o', l) :: rest => decide (o' = o) && consecutiveFrom (o' + l) rest

/-- The writes a response body streamed from resource offset `o` produces. -/
def bodyWrites : Nat → List Nat → List (Nat × Nat)
  | _, [] => []
  | o, c :: rest => (o, c) :: bodyWrites (o + c) rest

/-- Number of ranged requests occurring strictly after the `d`-th write event
of a trace (i.e. after the point at which the consumer destroyed the sink,
when the sink is destroyed once `d` writes have happened). -/
def rangedAfter : Nat → List Event → Nat
  | _, [] => 0
  | 0, Event.request (some _) :: rest => rangedAfter 0 rest + 1
  | 0, _ :: rest => rangedAfter 0 rest
  | d + 1, Event.write _ _ _ :: rest => rangedAfter d rest
  | d + 1, _ :: rest => rangedAfter (d + 1) rest

/-- Local backpressure check: a write that returned `false` must be followed
immediately by a `drain` (or be the last event of a blocked task). -/
def drainNext : Event → List Event → Bool
  | Event.write _ _ false, Event.drained :: _ => true
  | Event.write _ _ false, _ :: _ => false
  | Event.write _ _ false, [] => true
  | _, _ => true

/-- The relay never pulls from the network past an unanswered backpressure
signal: after every write that returned `false`, the next event (if any) is
the `drain` resumption, never a network read or request. -/
def backpressureOk : List Event → Bool
  | [] => true
  | e :: rest => drainNext e rest && backpressureOk rest

/-- True when no network read or request happens between here and the next
`clearTimeout` of the no-data timer. -/
def noFetchBeforeClear : List Event → Bool
  | [] => true
  | Event.clearTimer :: _ => true
  | Event.read _ :: _ => false
  | Event.request _ :: _ => false
  | _ :: rest => noFetchBeforeClear rest

/-- Formalisation of "the no-progress guard is cancelled upon the first
successful byte write": after the first accepted write of positive length,
the timer is cleared before any further network read or request. -/
def cancelledOnFirstWrite : List Event → Bool
  | [] => true
  | Event.write _ (_ + 1) true :: rest => noFetchBeforeClear rest
  | _ :: rest => cancelledOnFirstWrite rest

/-- Written to the spec's words, as the refinement target of C1: "starting at
cursor 0, repeatedly request the half-open byte range
[cursor, min(cursor + chunkSize, knownLength) - 1] ... until
cursor == knownLength". -/
def specRangesAux (chunkSize L : Nat) : Nat → Nat → List (Nat × Nat)
  | 0, _ => []
  | fuel + 1, cursor =>
    if cursor < L then
      (cursor, min (cursor + chunkSize) L - 1) ::
        specRangesAux chunkSize L fuel (min (cursor + chunkSize) L)
    else []

/-- The request ranges the spec prescribes for a known total length `L`. -/
def specRanges (L : Nat) : List (Nat × Nat) := specRangesAux CHUNK_SIZE L (L + 1) 0

/-- Number of bytes the i-th ranged request of a length-`L` transfer asks
for: the size of `[i*CHUNK_SIZE, min((i+1)*CHUNK_SIZE, L) - 1]`. -/
def rangeSizeAt (L i : Nat) : Nat := min ((i + 1) * CHUNK_SIZE) L - i * CHUNK_SIZE

/-- The `noDataTimer` callback (lines 176-181): when it fires, destroy the
sink iff no bytes have been written yet.  Arguments: `bytesWritten` at fire
time and whether the sink is already destroyed (`pass.destroy` on a destroyed
stream is a no-op).  Returns (number of effective destroys, whether the
transfer was failed with the timeout error). -/
def noDataTimerFire (bytesWritten : Nat) (sinkDestroyed : Bool) : Nat × Bool :=
  if bytesWritten = 0 then
    (if sinkDestroyed then 0 else 1, true)
  else
    (0, false)

/-! The idle-timeout monitor of `setupIdleTimeout` (lines 33-84). -/

/-- Idle-monitor state of one guild: whether `idleTimers` holds a handle for
it, how many live (armed, neither fired nor cancelled) timeout objects exist
for it, and the human occupancy most recently observed by the handler. -/
structure IdleState where
  inMap : Bool
  live : Nat
  lastOcc : Option Nat
  deriving DecidableEq, Repr

/-- State of a fresh session: no timer, no observation. -/
def initIdle : IdleState := ⟨false, 0, none⟩

/-- The `voiceStateUpdate` handler body after its guards (queue and bound
channel exist, the event concerns the bot's channel), lines 49-80: when the
channel has no humans arm a timer unless one is armed; when humans are
present cancel the armed timer, if any. -/
def onVoiceStateUpdate (st : IdleState) (humanCount : Nat) : IdleState :=
  if humanCount = 0 then
    if st.inMap then { st with lastOcc := some 0 }
    else { inMap := true, live := st.live + 1, lastOcc := some 0 }
  else
    if st.inMap then { inMap := false, live := st.live - 1, lastOcc := some humanCount }
    else { st with lastOcc := some humanCount }

/-- A whole sequence of occupancy notifications against a fresh session. -/
def runOccupancy (ns : List Nat) : IdleState := ns.foldl onVoiceStateUpdate initIdle

/-- What the idle-timer fire handler can see: whether the guild still has a
queue with a bound channel, the occupancy re-read at fire time, and whether
`queue.delete()` throws. -/
structure FireInput where
  queuePresent : Bool
  occupancy : Nat
  teardownThrows : Bool
  deriving DecidableEq, Repr

/-- Outcome of the idle-timer fire handler. -/
structure FireOutcome where
  queuePresent : Bool
  inMap : Bool
  teardownInvoked : Bool
  errorPropagated : Bool
  deriving DecidableEq, Repr

/-- The idle-timer fire handler (lines 54-69): re-read the queue and its
occupancy; if the queue exists and occupancy is still zero call
`queue.delete()`; catch and log any teardown error; finally delete the timer
handle from `idleTimers` unconditionally. -/
def fireIdleTimer (inp : FireInput) : FireOutcome :=
  if inp.queuePresent && decide (inp.occupancy = 0) then
    if inp.teardownThrows then
      ⟨inp.queuePresent, false, true, false⟩
    else
      ⟨false, false, true, false⟩
  else
    ⟨inp.queuePresent, false, false, false⟩

/-! Concrete environments used by witnesses and counterexamples. -/

/-- A fully healthy CDN for a 12 MiB resource: every ranged request is ok and
delivers exactly the bytes of its range in one chunk; no backpressure; the
consumer never destroys the sink. -/
def envHealthy12M : Env where
  ranged := fun i => ⟨true, [max (min ((i + 1) * CHUNK_SIZE) 12582912 - i * CHUNK_SIZE) 1]⟩
  unranged := ⟨true, []⟩
  saturates := fun _ => false
  destroyedFrom := none

/-- A CDN that honours the first ranged request of a (CHUNK_SIZE + 1)-byte
resource, returns an empty body for the second one, and serves the whole
resource (CHUNK_SIZE + 1 bytes) on the unranged fallback. -/
def envEmptySecondChunk : Env where
  ranged := fun i => ⟨true, if i = 0 then [5242880] else []⟩
  unranged := ⟨true, [5242881]⟩
  saturates := fun _ => false
  destroyedFrom := none

/-- A CDN whose first ranged request succeeds with a full chunk and whose
second returns a non-ok status. -/
def envFailSecondChunk : Env where
  ranged := fun i => ⟨decide (i = 0), if i = 0 then [5242880] else []⟩
  unranged := ⟨true, []⟩
  saturates := fun _ => false
  destroyedFrom := none

/-- A healthy CDN for a 2-chunk resource whose consumer destroys the sink
right after the first chunk's write completes (before the second ranged
request is issued). -/
def envDestroyedAtBoundary : Env where
  ranged := fun _ => ⟨true, [5242880]⟩
  unranged := ⟨true, []⟩
  saturates := fun _ => false
  destroyedFrom := some 1

/-- A CDN whose very first ranged response is ok but empty, with a healthy
unranged fallback of one byte (resource length 1). -/
def envEmptyFirstChunk : Env where
  ranged := fun _ => ⟨true, []⟩
  unranged := ⟨true, [1]⟩
  saturates := fun _ => false
  destroyedFrom := none

/-- An unknown-length transfer: body of three chunks, second write saturates. -/
def envUnknownLength : Env where
  ranged := fun _ => ⟨true, []⟩
  unranged := ⟨true, [100, 200, 300]⟩
  saturates := fun w => decide (w = 1)
  destroyedFrom := none

/-! Basic lemmas about the trace observations. -/

theorem destroyedAt_none {env : Env} (h : env.destroyedFrom = none) (w : Nat) :
    env.destroyedAt w = false := by
  simp [Env.destroyedAt, h]

theorem rangedRequests_append (t1 t2 : List Event) :
    rangedRequests (t1 ++ t2) = rangedRequests t1 ++ rangedRequests t2 := by
  induction t1 with
  | nil => rfl
  | cons e rest ih =>
    cases e with
    | request r => cases r <;> simp [rangedRequests, ih]
    | _ => simp [rangedRequests, ih]

theorem unrangedCount_append (t1 t2 : List Event) :
    unrangedCount (t1 ++ t2) = unrangedCount t1 + unrangedCount t2 := by
  induction t1 with
  | nil => simp [unrangedCount]
  | cons e rest ih =>
    cases e with
    | request r => cases r <;> simp [unrangedCount, ih] <;> omega
    | _ => simp [unrangedCount, ih]

theorem clearTimerCount_append (t1 t2 : List Event) :
    clearTimerCount (t1 ++ t2) = clearTimerCount t1 + clearTimerCount t2 := by
  induction t1 with
  | nil => simp [clearTimerCount]
  | cons e rest ih => cases e <;> simp [clearTimerCount, ih] <;> omega

theorem setTimerCount_append (t1 t2 : List Event) :
    setTimerCount (t1 ++ t2) = setTimerCount t1 + setTimerCount t2 := by
  induction t1 with
  | nil => simp [setTimerCount]
  | cons e rest ih => cases e <;> simp [setTimerCount, ih] <;> omega

theorem sinkWrites_append (t1 t2 : List Event) :
    sinkWrites (t1 ++ t2) = sinkWrites t1 ++ sinkWrites t2 := by
  induction t1 with
  | nil => rfl
  | cons e rest ih => cases e <;> simp [sinkWrites, ih]

theorem writeCount_append (t1 t2 : List Event) :
    writeCount (t1 ++ t2) = writeCount t1 + writeCount t2 := by
  induction t1 with
  | nil => simp [writeCount]
  | cons e rest ih => cases e <;> simp [writeCount, ih] <;> omega

/-! Lemmas about streaming one body into the sink. -/

theorem relayBody_not_blocked {env : Env} (h : env.destroyedFrom = none) :
    ∀ (chunks : List Nat) (off w bw wr : Nat),
      (relayBody env chunks off w bw wr).blocked = false := by
  intro chunks
  induction chunks with
  | nil => intro off w bw wr; rfl
  | cons c rest ih =>
    intro off w bw wr
    simp only [relayBody, destroyedAt_none h, Bool.false_eq_true, if_false]
    by_cases hs : env.saturates w <;> simp [hs, ih]

theorem relayBody_wrote {env : Env} (h : env.destroyedFrom = none) :
    ∀ (chunks : List Nat) (off w bw wr : Nat),
      (relayBody env chunks off w bw wr).wrote = wr + chunks.sum := by
  intro chunks
  induction chunks with
  | nil => intro off w bw wr; simp [relayBody]
  | cons c rest ih =>
    intro off w bw wr
    simp only [relayBody, destroyedAt_none h, Bool.false_eq_true, if_false]
    by_cases hs : env.saturates w <;> simp [hs, ih] <;> omega

theorem relayBody_bytes {env : Env} (h : env.destroyedFrom = none) :
    ∀ (chunks : List Nat) (off w bw wr : Nat),
      (relayBody env chunks off w bw wr).bytes = bw + chunks.sum := by
  intro chunks
  induction chunks with
  | nil => intro off w bw wr; simp [relayBody]
  | cons c rest ih =>
    intro off w bw wr
    simp only [relayBody, destroyedAt_none h, Bool.false_eq_true, if_false]
    by_cases hs : env.saturates w <;> simp [hs, ih] <;> omega

theorem relayBody_wIdx {env : Env} (h : env.destroyedFrom = none) :
    ∀ (chunks : List Nat) (off w bw wr : Nat),
      (relayBody env chunks off w bw wr).wIdx = w + chunks.length := by
  intro chunks
  induction chunks with
  | nil => intro off w bw wr; simp [relayBody]
  | cons c rest ih =>
    intro off w bw wr
    simp only [relayBody, destroyedAt_none h, Bool.false_eq_true, if_false]
    by_cases hs : env.saturates w <;> simp [hs, ih] <;> omega

theorem relayBody_wIdx_writeCount (env : Env) :
    ∀ (chunks : List Nat) (off w bw wr : Nat),
      (relayBody env chunks off w bw wr).wIdx
        = w + writeCount (relayBody env chunks off w bw wr).trace := by
  intro chunks
  induction chunks with
  | nil => intro off w bw wr; simp [relayBody, writeCount]
  | cons c rest ih =>
    intro off w bw wr
    simp only [relayBody]
    by_cases hd : env.destroyedAt w
    · simp [hd, writeCount]
    · by_cases hs : env.saturates w <;> simp [hd, hs, ih, writeCount] <;> omega

theorem rangedRequests_relayBody (env : Env) :
    ∀ (chunks : List Nat) (off w bw wr : Nat),
      rangedRequests (relayBody env chunks off w bw wr).trace = [] := by
  intro chunks
  induction chunks with
  | nil => intro off w bw wr; rfl
  | cons c rest ih =>
    intro off w bw wr
    simp only [relayBody]
    by_cases hd : env.destroyedAt w
    · simp [hd, rangedRequests]
    · by_cases hs : env.saturates w <;> simp [hd, hs, ih, rangedRequests]

theorem unrangedCount_relayBody (env : Env) :
    ∀ (chunks : List Nat) (off w bw wr : Nat),
      unrangedCount (relayBody env chunks off w bw wr).trace = 0 := by
  intro chunks
  induction chunks with
  | nil => intro off w bw wr; rfl
  | cons c rest ih =>
    intro off w bw wr
    simp only [relayBody]
    by_cases hd : env.destroyedAt w
    · simp [hd, unrangedCount]
    · by_cases hs : env.saturates w <;> simp [hd, hs, ih, unrangedCount]

theorem setTimerCount_relayBody (env : Env) :
    ∀ (chunks : List Nat) (off w bw wr : Nat),
      setTimerCount (relayBody env chunks off w bw wr).trace = 0 := by
  intro chunks
  induction chunks with
  | nil => intro off w bw wr; rfl
  | cons c rest ih =>
    intro off w bw wr
    simp only [relayBody]
    by_cases hd : env.destroyedAt w
    · simp [hd, setTimerCount]
    · by_cases hs : env.saturates w <;> simp [hd, hs, ih, setTimerCount]

theorem clearTimerCount_relayBody (env : Env) :
    ∀ (chunks : List Nat) (off w bw wr : Nat),
      clearTimerCount (relayBody env chunks off w bw wr).trace = 0 := by
  intro chunks
  induction chunks with
  | nil => intro off w bw wr; rfl
  | cons c rest ih =>
    intro off w bw wr
    simp only [relayBody]
    by_cases hd : env.destroyedAt w
    · simp [hd, clearTimerCount]
    · by_cases hs : env.saturates w <;> simp [hd, hs, ih, clearTimerCount]

theorem sinkWrites_relayBody {env : Env} (h : env.destroyedFrom = none) :
    ∀ (chunks : List Nat) (off w bw wr : Nat),
      sinkWrites (relayBody env chunks off w bw wr).trace = bodyWrites off chunks := by
  intro chunks
  induction chunks with
  | nil => intro off w bw wr; rfl
  | cons c rest ih =>
    intro off w bw wr
    simp only [relayBody, destroyedAt_none h, Bool.false_eq_true, if_false]
    by_cases hs : env.saturates w <;> simp [hs, ih, sinkWrites, bodyWrites]

theorem consecutiveFrom_bodyWrites :
    ∀ (chunks : List Nat) (o : Nat), consecutiveFrom o (bodyWrites o chunks) = true := by
  intro chunks
  induction chunks with
  | nil => intro o; rfl
  | cons c rest ih => intro o; simp [bodyWrites, consecutiveFrom, ih]

theorem sumLens_bodyWrites :
    ∀ (chunks : List Nat) (o : Nat), sumLens (bodyWrites o chunks) = chunks.sum := by
  intro chunks
  induction chunks with
  | nil => intro o; rfl
  | cons c rest ih =>
    intro o
    have h := ih (o + c)
    simp only [bodyWrites, sumLens, List.map_cons, List.sum_cons] at *
    omega

theorem consecutiveFrom_append {xs : List (Nat × Nat)} :
    ∀ {o : Nat} {ys : List (Nat × Nat)}, consecutiveFrom o xs = true →
      consecutiveFrom (o + sumLens xs) ys = true → consecutiveFrom o (xs ++ ys) = true := by
  induction xs with
  | nil => intro o ys _ h2; simpa [sumLens] using h2
  | cons p rest ih =>
    intro o ys h1 h2
    obtain ⟨po, pl⟩ := p
    simp only [consecutiveFrom, Bool.and_eq_true, decide_eq_true_eq] at h1
    obtain ⟨rfl, hrest⟩ := h1
    simp only [List.cons_append, consecutiveFrom, Bool.and_eq_true, decide_eq_true_eq]
    refine ⟨trivial, ih hrest ?_⟩
    have : po + pl + sumLens rest = po + sumLens ((po, pl) :: rest) := by
      simp [sumLens]; omega
    rw [← this] at h2; exact h2

/-! The idle-monitor invariant and the claims about it. -/

/-- Invariant of the idle monitor: the handle is in the map exactly when the
last observed occupancy was zero, and exactly one live timer backs it. -/
def idleInv (st : IdleState) : Prop :=
  (st.inMap = true ↔ st.lastOcc = some 0) ∧ st.live = (if st.inMap then 1 else 0)

theorem idleInv_init : idleInv initIdle := by
  simp [idleInv, initIdle]

theorem idleInv_step (st : IdleState) (n : Nat) (h : idleInv st) :
    idleInv (onVoiceStateUpdate st n) := by
  obtain ⟨h1, h2⟩ := h
  by_cases hn : n = 0 <;> by_cases hm : st.inMap = true <;>
    simp [onVoiceStateUpdate, hn, hm, idleInv] at * <;> omega

theorem idleInv_run (ns : List Nat) : idleInv (runOccupancy ns) := by
  suffices h : ∀ st, idleInv st → idleInv (ns.foldl onVoiceStateUpdate st) from
    h initIdle idleInv_init
  induction ns with
  | nil => intro st h; exact h
  | cons n rest ih => intro st h; exact ih _ (idleInv_step st n h)

/-- C5: after any sequence of occupancy-change notifications a timer handle is
in the registry iff the last observed occupancy was zero (the session stays
live across pure notification sequences: only a timer fire or an external
teardown terminates it), the session never holds more than one live timer,
and a handle is present exactly when one live timer exists. -/
theorem C5_idle_timer_iff (ns : List Nat) :
    ((runOccupancy ns).inMap = true ↔ (runOccupancy ns).lastOcc = some 0) ∧
    (runOccupancy ns).live ≤ 1 ∧
    ((runOccupancy ns).inMap = true ↔ (runOccupancy ns).live = 1) := by
  obtain ⟨h1, h2⟩ := idleInv_run ns
  refine ⟨h1, ?_, ?_⟩
  · by_cases hm : (runOccupancy ns).inMap = true <;> simp [hm] at h2 <;> omega
  · by_cases hm : (runOccupancy ns).inMap = true <;> simp [hm] at h2 ⊢ <;> omega

/-- C6: whenever the idle timer fires, the handle is removed from the registry
unconditionally and no teardown error propagates; if the queue still exists
and occupancy is still zero and teardown does not throw, teardown runs and
the session is removed; if occupancy is non-zero, nothing is torn down and
the session is left as it was. -/
theorem C6_timer_fire (inp : FireInput) :
    (fireIdleTimer inp).inMap = false ∧
    (fireIdleTimer inp).errorPropagated = false ∧
    (inp.queuePresent = true → inp.occupancy = 0 → inp.teardownThrows = false →
      (fireIdleTimer inp).teardownInvoked = true ∧ (fireIdleTimer inp).queuePresent = false) ∧
    (0 < inp.occupancy →
      (fireIdleTimer inp).queuePresent = inp.queuePresent ∧
      (fireIdleTimer inp).teardownInvoked = false) := by
  obtain ⟨q, occ, thr⟩ := inp
  refine ⟨?_, ?_, ?_, ?_⟩ <;>
    simp [fireIdleTimer] <;> cases q <;> cases thr <;>
      by_cases hocc : occ = 0 <;> simp [hocc] <;> omega

theorem C6_witness :
    (true : Bool) = true ∧ (0 : Nat) = 0 ∧ (false : Bool) = false ∧
    (fireIdleTimer ⟨true, 0, false⟩).queuePresent = false ∧
    (fireIdleTimer ⟨true, 0, false⟩).teardownInvoked = true ∧
    (fireIdleTimer ⟨true, 0, false⟩).inMap = false :=
  ⟨rfl, rfl, rfl,
    ((C6_timer_fire ⟨true, 0, false⟩).2.2.1 rfl rfl rfl).2,
    ((C6_timer_fire ⟨true, 0, false⟩).2.2.1 rfl rfl rfl).1,
    (C6_timer_fire ⟨true, 0, false⟩).1⟩

/-! More request-list lemmas, and the unranged-path claim. -/

theorem requestsOf_append (t1 t2 : List Event) :
    requestsOf (t1 ++ t2) = requestsOf t1 ++ requestsOf t2 := by
  induction t1 with
  | nil => rfl
  | cons e rest ih => cases e <;> simp [requestsOf, ih]

theorem requestsOf_relayBody (env : Env) :
    ∀ (chunks : List Nat) (off w bw wr : Nat),
      requestsOf (relayBody env chunks off w bw wr).trace = [] := by
  intro chunks
  induction chunks with
  | nil => intro off w bw wr; rfl
  | cons c rest ih =>
    intro off w bw wr
    simp only [relayBody]
    by_cases hd : env.destroyedAt w
    · simp [hd, requestsOf]
    · by_cases hs : env.saturates w <;> simp [hd, hs, ih, requestsOf]

/-- C9: a transfer opened without a known total length does exactly one
request, and it is unranged; when the response is ok its whole body is
relayed into the sink in arrival order (offsets `0, c0, c0+c1, ...`) and the
task completes; when it is not ok the task destroys the sink once with an
error and is failed.  (`total = 0` encodes the absent length, as in the code;
the consumer is assumed not to destroy the sink itself.) -/
theorem C9_unranged_path (env : Env) (hnd : env.destroyedFrom = none) :
    requestsOf (createStream env 0).trace = [none] ∧
    (env.unranged.ok = true →
      (createStream env 0).status = Status.complete ∧
      sinkWrites (createStream env 0).trace = bodyWrites 0 env.unranged.body ∧
      (createStream env 0).bytes = env.unranged.body.sum) ∧
    (env.unranged.ok = false →
      (createStream env 0).status = Status.failed ∧
      destroySinkCount (createStream env 0).trace = 1) := by
  by_cases hok : env.unranged.ok
  · refine ⟨?_, fun _ => ⟨?_, ?_, ?_⟩, fun hcon => by simp [hok] at hcon⟩ <;>
      simp [createStream, createStreamFuel, hok, relayBody_not_blocked hnd,
        requestsOf, requestsOf_append, requestsOf_relayBody,
        sinkWrites, sinkWrites_append, sinkWrites_relayBody hnd, relayBody_bytes hnd]
  · have hok' : env.unranged.ok = false := by simpa using hok
    refine ⟨?_, fun hcon => by simp [hok'] at hcon, fun _ => ⟨?_, ?_⟩⟩ <;>
      simp [createStream, createStreamFuel, hok', requestsOf, destroySinkCount]

theorem C9_witness :
    envUnknownLength.destroyedFrom = none ∧
    requestsOf (createStream envUnknownLength 0).trace = [none] ∧
    (createStream envUnknownLength 0).status = Status.complete ∧
    (createStream envUnknownLength 0).bytes = 600 :=
  ⟨rfl, (C9_unranged_path envUnknownLength rfl).1,
    ((C9_unranged_path envUnknownLength rfl).2.1 rfl).1,
    by decide⟩

/-! The ranged request sequence (C1). -/

theorem CHUNK_SIZE_pos : 0 < CHUNK_SIZE := by decide

theorem chunkLoop_ranges (env : Env) (L : Nat)
    (hok : ∀ i, (env.ranged i).ok = true)
    (hpos : ∀ i, 0 < wroteOf (env.ranged i))
    (hnd : env.destroyedFrom = none) :
    ∀ fuel start reqIdx wIdx bw,
      rangedRequests (chunkLoop env L fuel start reqIdx wIdx bw).trace
        = specRangesAux CHUNK_SIZE L fuel start := by
  intro fuel
  induction fuel with
  | zero => intro start reqIdx wIdx bw; rfl
  | succ fuel ih =>
    intro start reqIdx wIdx bw
    by_cases h : start < L
    · have hwr : (relayBody env (env.ranged reqIdx).body start wIdx bw 0).wrote
          = wroteOf (env.ranged reqIdx) := by
        rw [relayBody_wrote hnd]; simp [wroteOf]
      have hwrpos := hpos reqIdx
      simp only [chunkLoop, h, if_true, hok reqIdx, relayBody_not_blocked hnd,
        Bool.false_eq_true, if_false, hwr, specRangesAux]
      rw [if_neg (by omega)]
      have hCS := CHUNK_SIZE_pos
      simp only [rangedRequests, rangedRequests_append, rangedRequests_relayBody,
        List.nil_append, ih]
      congr 2 <;> omega
    · simp [chunkLoop, h, specRangesAux, rangedRequests]

theorem chunkLoop_completes (env : Env) (L : Nat)
    (hok : ∀ i, (env.ranged i).ok = true)
    (hpos : ∀ i, 0 < wroteOf (env.ranged i))
    (hnd : env.destroyedFrom = none) :
    ∀ fuel start reqIdx wIdx bw, L - start < fuel → start ≤ L →
      (chunkLoop env L fuel start reqIdx wIdx bw).status = Status.complete ∧
      (chunkLoop env L fuel start reqIdx wIdx bw).cursor = L := by
  intro fuel
  induction fuel with
  | zero => intro start reqIdx wIdx bw hf hs; exact absurd hf (by omega)
  | succ fuel ih =>
    intro start reqIdx wIdx bw hf hs
    by_cases h : start < L
    · have hwr : (relayBody env (env.ranged reqIdx).body start wIdx bw 0).wrote
          = wroteOf (env.ranged reqIdx) := by
        rw [relayBody_wrote hnd]; simp [wroteOf]
      have hwrpos := hpos reqIdx
      simp only [chunkLoop, h, if_true, hok reqIdx, relayBody_not_blocked hnd,
        Bool.false_eq_true, if_false, hwr]
      rw [if_neg (by omega)]
      have hCS := CHUNK_SIZE_pos
      refine ih _ _ _ _ ?_ ?_ <;> omega
    · have heq : start = L := by omega
      simp only [chunkLoop, h, if_false]
      exact ⟨trivial, heq⟩

/-- C1: for every transfer with known length `L > 0` against a CDN that
answers every ranged request ok with a non-empty body, the relay's ranged
requests are exactly the spec's sequence (strictly sequential from cursor 0,
each covering `[cursor, min(cursor + CHUNK_SIZE, L) - 1]`), the cursor ends
exactly at `L`, and the task completes.  Instantiated at
`L = 12 * 1024 * 1024` by `C1_witness`, which exhibits the three concrete
ranges and the final cursor 12,582,912. -/
theorem C1_ranged_sequence (env : Env) (L : Nat) (hL : 0 < L)
    (hok : ∀ i, (env.ranged i).ok = true)
    (hpos : ∀ i, 0 < wroteOf (env.ranged i))
    (hnd : env.destroyedFrom = none) :
    rangedRequests (createStream env L).trace = specRanges L ∧
    (createStream env L).cursor = L ∧
    (createStream env L).status = Status.complete := by
  have hne : ¬(L = 0) := by omega
  have hcpl := chunkLoop_completes env L hok hpos hnd (L + 1) 0 0 0 0 (by omega) (by omega)
  have hrg := chunkLoop_ranges env L hok hpos hnd (L + 1) 0 0 0 0
  refine ⟨?_, ?_, ?_⟩ <;>
    simp only [createStream, createStreamFuel, hne, if_false, rangedRequests, specRanges,
      hrg, hcpl.1, hcpl.2]

theorem C1_witness :
    ((0 : Nat) < 12582912 ∧
      (∀ i, (envHealthy12M.ranged i).ok = true) ∧
      (∀ i, 0 < wroteOf (envHealthy12M.ranged i)) ∧
      envHealthy12M.destroyedFrom = none) ∧
    rangedRequests (createStream envHealthy12M 12582912).trace
      = [(0, 5242879), (5242880, 10485759), (10485760, 12582911)] ∧
    (createStream envHealthy12M 12582912).cursor = 12582912 ∧
    (createStream envHealthy12M 12582912).status = Status.complete := by
  have hpos : ∀ i, 0 < wroteOf (envHealthy12M.ranged i) := by
    intro i
    simp [envHealthy12M, wroteOf]
  have h := C1_ranged_sequence envHealthy12M 12582912 (by decide) (fun i => rfl) hpos rfl
  refine ⟨⟨by decide, fun i => rfl, hpos, rfl⟩, ?_, h.2.1, h.2.2⟩
  rw [h.1]
  decide

/-! Termination of the chunk loop (C10). -/

theorem div_bound_one (r : Nat) (hr : 0 < r) :
    1 ≤ (r + CHUNK_SIZE - 1) / CHUNK_SIZE := by
  rw [Nat.le_div_iff_mul_le CHUNK_SIZE_pos]
  have := CHUNK_SIZE_pos
  omega

theorem div_bound_step (r : Nat) (hr : 0 < r) :
    (r - min CHUNK_SIZE r + CHUNK_SIZE - 1) / CHUNK_SIZE + 1
      ≤ (r + CHUNK_SIZE - 1) / CHUNK_SIZE := by
  have hC := CHUNK_SIZE_pos
  by_cases h : r ≤ CHUNK_SIZE
  · have h1 : r - min CHUNK_SIZE r = 0 := by omega
    rw [h1]
    have h2 : (0 + CHUNK_SIZE - 1) / CHUNK_SIZE = 0 := Nat.div_eq_of_lt (by omega)
    rw [h2]
    exact div_bound_one r hr
  · have h1 : r - min CHUNK_SIZE r + CHUNK_SIZE - 1 = r - 1 := by omega
    have h2 : r + CHUNK_SIZE - 1 = (r - 1) + CHUNK_SIZE := by omega
    rw [h1, h2, Nat.add_div_right _ CHUNK_SIZE_pos]

theorem chunkLoop_rangedCount_le (env : Env) (L : Nat) :
    ∀ fuel start reqIdx wIdx bw,
      rangedCount (chunkLoop env L fuel start reqIdx wIdx bw).trace
        ≤ (L - start + CHUNK_SIZE - 1) / CHUNK_SIZE := by
  intro fuel
  induction fuel with
  | zero => intro start reqIdx wIdx bw; simp [chunkLoop, rangedCount, rangedRequests]
  | succ fuel ih =>
    intro start reqIdx wIdx bw
    by_cases h : start < L
    · have h1 := div_bound_one (L - start) (by omega)
      by_cases hok : (env.ranged reqIdx).ok
      · by_cases hb : (relayBody env (env.ranged reqIdx).body start wIdx bw 0).blocked
        · simpa [chunkLoop, h, hok, hb, rangedCount, rangedRequests,
            rangedRequests_relayBody] using h1
        · by_cases hw : (relayBody env (env.ranged reqIdx).body start wIdx bw 0).wrote = 0
          · by_cases hfu : env.unranged.ok
            · by_cases hfb : (relayBody env env.unranged.body 0
                  (relayBody env (env.ranged reqIdx).body start wIdx bw 0).wIdx
                  (relayBody env (env.ranged reqIdx).body start wIdx bw 0).bytes 0).blocked
              · simpa [chunkLoop, h, hok, hb, hw, hfu, hfb, rangedCount, rangedRequests,
                  rangedRequests_append, rangedRequests_relayBody] using h1
              · simpa [chunkLoop, h, hok, hb, hw, hfu, hfb, rangedCount, rangedRequests,
                  rangedRequests_append, rangedRequests_relayBody] using h1
            · simpa [chunkLoop, h, hok, hb, hw, hfu, rangedCount, rangedRequests,
                rangedRequests_append, rangedRequests_relayBody] using h1
          · have hrec := ih (min (start + CHUNK_SIZE - 1) (L - 1) + 1) (reqIdx + 1)
              (relayBody env (env.ranged reqIdx).body start wIdx bw 0).wIdx
              (relayBody env (env.ranged reqIdx).body start wIdx bw 0).bytes
            have hstep := div_bound_step (L - start) (by omega)
            have harg : L - (min (start + CHUNK_SIZE - 1) (L - 1) + 1)
                = (L - start) - min CHUNK_SIZE (L - start) := by
              have := CHUNK_SIZE_pos
              omega
            simp only [chunkLoop, h, if_true, hok, if_true, hb, Bool.false_eq_true,
              if_false, hw, rangedCount, rangedRequests, rangedRequests_append,
              rangedRequests_relayBody, List.nil_append, List.length_cons,
              List.length_append] at *
            rw [harg] at hrec
            omega
      · simpa [chunkLoop, h, hok, rangedCount, rangedRequests] using h1
    · simp [chunkLoop, h, rangedCount, rangedRequests]

theorem chunkLoop_not_fuelOut (env : Env) (L : Nat) :
    ∀ fuel start reqIdx wIdx bw, L - start < fuel →
      (chunkLoop env L fuel start reqIdx wIdx bw).status ≠ Status.fuelOut := by
  intro fuel
  induction fuel with
  | zero => intro start reqIdx wIdx bw hf; exact absurd hf (by omega)
  | succ fuel ih =>
    intro start reqIdx wIdx bw hf
    by_cases h : start < L
    · by_cases hok : (env.ranged reqIdx).ok
      · by_cases hb : (relayBody env (env.ranged reqIdx).body start wIdx bw 0).blocked
        · simp [chunkLoop, h, hok, hb]
        · by_cases hw : (relayBody env (env.ranged reqIdx).body start wIdx bw 0).wrote = 0
          · by_cases hfu : env.unranged.ok
            · by_cases hfb : (relayBody env env.unranged.body 0
                  (relayBody env (env.ranged reqIdx).body start wIdx bw 0).wIdx
                  (relayBody env (env.ranged reqIdx).body start wIdx bw 0).bytes 0).blocked
              · simp [chunkLoop, h, hok, hb, hw, hfu, hfb]
              · simp [chunkLoop, h, hok, hb, hw, hfu, hfb]
            · simp [chunkLoop, h, hok, hb, hw, hfu]
          · have hrec := ih (min (start + CHUNK_SIZE - 1) (L - 1) + 1) (reqIdx + 1)
              (relayBody env (env.ranged reqIdx).body start wIdx bw 0).wIdx
              (relayBody env (env.ranged reqIdx).body start wIdx bw 0).bytes
              (by have hCS := CHUNK_SIZE_pos; omega)
            simpa [chunkLoop, h, hok, hb, hw] using hrec
      · simp [chunkLoop, h, hok]
    · simp [chunkLoop, h]

/-- C10: the ranged chunk loop terminates: for any environment and any
iteration budget the task issues at most `ceil(L / CHUNK_SIZE)` ranged
requests, and with the canonical budget the interpreter never runs out of
fuel — the cursor strictly increases every continuing iteration, so no
transfer loops forever issuing ranged requests. -/
theorem C10_terminates (env : Env) (L fuel : Nat) :
    rangedCount (createStreamFuel env L fuel).trace
      ≤ (L + CHUNK_SIZE - 1) / CHUNK_SIZE ∧
    (createStream env L).status ≠ Status.fuelOut := by
  constructor
  · by_cases h0 : L = 0
    · by_cases hfu : env.unranged.ok
      · by_cases hfb : (relayBody env env.unranged.body 0 0 0 0).blocked <;>
          simp [createStreamFuel, h0, hfu, hfb, rangedCount, rangedRequests,
            rangedRequests_append, rangedRequests_relayBody]
      · simp [createStreamFuel, h0, hfu, rangedCount, rangedRequests]
    · have := chunkLoop_rangedCount_le env L fuel 0 0 0 0
      simpa [createStreamFuel, h0, rangedCount, rangedRequests] using this
  · by_cases h0 : L = 0
    · by_cases hfu : env.unranged.ok
      · by_cases hfb : (relayBody env env.unranged.body 0 0 0 0).blocked <;>
          simp [createStream, createStreamFuel, h0, hfu, hfb]
      · simp [createStream, createStreamFuel, h0, hfu]
    · have := chunkLoop_not_fuelOut env L (L + 1) 0 0 0 0 (by omega)
      simpa [createStream, createStreamFuel, h0] using this

/-! The empty-chunk fallback (C3). -/

theorem chunkLoop_unranged_le_one (env : Env) (L : Nat) :
    ∀ fuel start reqIdx wIdx bw,
      unrangedCount (chunkLoop env L fuel start reqIdx wIdx bw).trace ≤ 1 := by
  intro fuel
  induction fuel with
  | zero => intro start reqIdx wIdx bw; simp [chunkLoop, unrangedCount]
  | succ fuel ih =>
    intro start reqIdx wIdx bw
    by_cases h : start < L
    · by_cases hok : (env.ranged reqIdx).ok
      · by_cases hb : (relayBody env (env.ranged reqIdx).body start wIdx bw 0).blocked
        · simp [chunkLoop, h, hok, hb, unrangedCount, unrangedCount_append,
            unrangedCount_relayBody]
        · by_cases hw : (relayBody env (env.ranged reqIdx).body start wIdx bw 0).wrote = 0
          · by_cases hfu : env.unranged.ok
            · by_cases hfb : (relayBody env env.unranged.body 0
                  (relayBody env (env.ranged reqIdx).body start wIdx bw 0).wIdx
                  (relayBody env (env.ranged reqIdx).body start wIdx bw 0).bytes 0).blocked <;>
                simp [chunkLoop, h, hok, hb, hw, hfu, hfb, unrangedCount,
                  unrangedCount_append, unrangedCount_relayBody]
            · simp [chunkLoop, h, hok, hb, hw, hfu, unrangedCount, unrangedCount_append,
                unrangedCount_relayBody]
          · have hrec := ih (min (start + CHUNK_SIZE - 1) (L - 1) + 1) (reqIdx + 1)
              (relayBody env (env.ranged reqIdx).body start wIdx bw 0).wIdx
              (relayBody env (env.ranged reqIdx).body start wIdx bw 0).bytes
            simpa [chunkLoop, h, hok, hb, hw, unrangedCount, unrangedCount_append,
              unrangedCount_relayBody] using hrec
      · simp [chunkLoop, h, hok, unrangedCount]
    · simp [chunkLoop, h, unrangedCount]

theorem chunkLoop_fallback (env : Env) (L : Nat) (hnd : env.destroyedFrom = none) :
    ∀ k fuel start reqIdx wIdx bw,
      start < L → L - start < fuel →
      (∀ j, j ≤ k → (env.ranged (reqIdx + j)).ok = true) →
      (∀ j, j < k → 0 < wroteOf (env.ranged (reqIdx + j))) →
      wroteOf (env.ranged (reqIdx + k)) = 0 →
      start + k * CHUNK_SIZE < L →
      (env.unranged.ok = true →
        (chunkLoop env L fuel start reqIdx wIdx bw).status = Status.complete ∧
        unrangedCount (chunkLoop env L fuel start reqIdx wIdx bw).trace = 1 ∧
        rangedCount (chunkLoop env L fuel start reqIdx wIdx bw).trace = k + 1 ∧
        (∃ pre, sinkWrites (chunkLoop env L fuel start reqIdx wIdx bw).trace
          = pre ++ bodyWrites 0 env.unranged.body)) ∧
      (env.unranged.ok = false →
        (chunkLoop env L fuel start reqIdx wIdx bw).status = Status.failed ∧
        unrangedCount (chunkLoop env L fuel start reqIdx wIdx bw).trace = 1) := by
  intro k
  induction k with
  | zero =>
    intro fuel start reqIdx wIdx bw hs hf hok hpos hz hkL
    cases fuel with
    | zero => exact absurd hf (by omega)
    | succ fuel =>
      have hok0 : (env.ranged reqIdx).ok = true := by simpa using hok 0 (by omega)
      have hz0 : wroteOf (env.ranged reqIdx) = 0 := by simpa using hz
      have hw : (relayBody env (env.ranged reqIdx).body start wIdx bw 0).wrote = 0 := by
        rw [relayBody_wrote hnd]; simpa [wroteOf] using hz0
      by_cases hfu : env.unranged.ok
      · refine ⟨fun _ => ?_, fun hcon => by simp [hfu] at hcon⟩
        refine ⟨?_, ?_, ?_,
            ⟨sinkWrites (relayBody env (env.ranged reqIdx).body start wIdx bw 0).trace, ?_⟩⟩ <;>
          simp [chunkLoop, hs, hok0, relayBody_not_blocked hnd, hw, hfu,
            unrangedCount, unrangedCount_append, unrangedCount_relayBody,
            rangedCount, rangedRequests, rangedRequests_append, rangedRequests_relayBody,
            sinkWrites, sinkWrites_append, sinkWrites_relayBody hnd]
      · have hfu' : env.unranged.ok = false := by simpa using hfu
        refine ⟨fun hcon => by simp [hfu'] at hcon, fun _ => ⟨?_, ?_⟩⟩ <;>
          simp [chunkLoop, hs, hok0, relayBody_not_blocked hnd, hw, hfu',
            unrangedCount, unrangedCount_append, unrangedCount_relayBody]
  | succ k ihk =>
    intro fuel start reqIdx wIdx bw hs hf hok hpos hz hkL
    cases fuel with
    | zero => exact absurd hf (by omega)
    | succ fuel =>
      have hC := CHUNK_SIZE_pos
      have hmul : (k + 1) * CHUNK_SIZE = k * CHUNK_SIZE + CHUNK_SIZE := by ring
      have hok0 : (env.ranged reqIdx).ok = true := by simpa using hok 0 (by omega)
      have hpos0 : 0 < wroteOf (env.ranged reqIdx) := by simpa using hpos 0 (by omega)
      have hwr : (relayBody env (env.ranged reqIdx).body start wIdx bw 0).wrote
          = wroteOf (env.ranged reqIdx) := by
        rw [relayBody_wrote hnd]; simp [wroteOf]
      have hnext : min (start + CHUNK_SIZE - 1) (L - 1) + 1 = start + CHUNK_SIZE := by
        omega
      have hrec := ihk fuel (start + CHUNK_SIZE) (reqIdx + 1)
        (relayBody env (env.ranged reqIdx).body start wIdx bw 0).wIdx
        (relayBody env (env.ranged reqIdx).body start wIdx bw 0).bytes
        (by omega) (by omega)
        (fun j hj => by
          have h1 := hok (j + 1) (by omega)
          have harg : reqIdx + (j + 1) = reqIdx + 1 + j := by omega
          rwa [harg] at h1)
        (fun j hj => by
          have h1 := hpos (j + 1) (by omega)
          have harg : reqIdx + (j + 1) = reqIdx + 1 + j := by omega
          rwa [harg] at h1)
        (by
          have harg : reqIdx + (k + 1) = reqIdx + 1 + k := by omega
          rwa [harg] at hz)
        (by omega)
      constructor
      · intro hfu
        obtain ⟨hst, hun, hrg, pre, hwrts⟩ := hrec.1 hfu
        refine ⟨?_, ?_, ?_, ⟨bodyWrites start (env.ranged reqIdx).body ++ pre, ?_⟩⟩
        · simp only [chunkLoop, hs, if_true, hok0, relayBody_not_blocked hnd,
            Bool.false_eq_true, if_false, hwr]
          rw [if_neg (by omega), hnext]
          exact hst
        · simp only [chunkLoop, hs, if_true, hok0, relayBody_not_blocked hnd,
            Bool.false_eq_true, if_false, hwr]
          rw [if_neg (by omega), hnext]
          simp only [unrangedCount, unrangedCount_append, unrangedCount_relayBody]
          omega
        · simp only [chunkLoop, hs, if_true, hok0, relayBody_not_blocked hnd,
            Bool.false_eq_true, if_false, hwr]
          rw [if_neg (by omega), hnext]
          simp only [rangedCount, rangedRequests, rangedRequests_append,
            rangedRequests_relayBody, List.nil_append, List.length_cons]
          simp only [rangedCount] at hrg
          omega
        · simp only [chunkLoop, hs, if_true, hok0, relayBody_not_blocked hnd,
            Bool.false_eq_true, if_false, hwr]
          rw [if_neg (by omega), hnext]
          simp only [sinkWrites, sinkWrites_append, sinkWrites_relayBody hnd, hwrts]
          simp [List.append_assoc]
      · intro hfu
        obtain ⟨hst, hun⟩ := hrec.2 hfu
        refine ⟨?_, ?_⟩
        · simp only [chunkLoop, hs, if_true, hok0, relayBody_not_blocked hnd,
            Bool.false_eq_true, if_false, hwr]
          rw [if_neg (by omega), hnext]
          exact hst
        · simp only [chunkLoop, hs, if_true, hok0, relayBody_not_blocked hnd,
            Bool.false_eq_true, if_false, hwr]
          rw [if_neg (by omega), hnext]
          simp only [unrangedCount, unrangedCount_append, unrangedCount_relayBody]
          omega

/-- C3: for a known-length transfer whose k-th ranged chunk request (the
first k delivering data) succeeds with a zero-byte body, the relay abandons
the ranged strategy: exactly one unranged request is issued, its body is
relayed (the trace's writes end with exactly that body) and the task
completes — never failed — when the fallback response is ok; when the
fallback response is not ok the task fails with the fallback issued exactly
once and not retried; and in every run whatsoever at most one unranged
request ever happens. -/
theorem C3_empty_chunk_fallback (env : Env) (L k : Nat)
    (hnd : env.destroyedFrom = none)
    (hk : k * CHUNK_SIZE < L)
    (hok : ∀ j, j ≤ k → (env.ranged j).ok = true)
    (hpos : ∀ j, j < k → 0 < wroteOf (env.ranged j))
    (hz : wroteOf (env.ranged k) = 0) :
    (env.unranged.ok = true →
      (createStream env L).status = Status.complete ∧
      unrangedCount (createStream env L).trace = 1 ∧
      rangedCount (createStream env L).trace = k + 1 ∧
      (∃ pre, sinkWrites (createStream env L).trace
        = pre ++ bodyWrites 0 env.unranged.body)) ∧
    (env.unranged.ok = false →
      (createStream env L).status = Status.failed ∧
      unrangedCount (createStream env L).trace = 1) ∧
    (∀ (env' : Env) (L' : Nat), unrangedCount (createStream env' L').trace ≤ 1) := by
  have hL : 0 < L := by
    have : 0 ≤ k * CHUNK_SIZE := Nat.zero_le _
    omega
  have hne : ¬(L = 0) := by omega
  have hmain := chunkLoop_fallback env L hnd k (L + 1) 0 0 0 0 hL (by omega)
    (fun j hj => by simpa using hok j hj)
    (fun j hj => by simpa using hpos j hj)
    (by simpa using hz)
    (by omega)
  refine ⟨fun hfu => ?_, fun hfu => ?_, fun env' L' => ?_⟩
  · obtain ⟨hst, hun, hrg, pre, hwrts⟩ := hmain.1 hfu
    refine ⟨?_, ?_, ?_, ⟨pre, ?_⟩⟩
    · simpa [createStream, createStreamFuel, hne] using hst
    · simpa [createStream, createStreamFuel, hne, unrangedCount] using hun
    · simpa [createStream, createStreamFuel, hne, rangedCount, rangedRequests] using hrg
    · simpa [createStream, createStreamFuel, hne, sinkWrites] using hwrts
  · obtain ⟨hst, hun⟩ := hmain.2 hfu
    refine ⟨?_, ?_⟩ <;>
      simp [createStream, createStreamFuel, hne, unrangedCount, hst, hun]
  · by_cases h0 : L' = 0
    · by_cases hfu : env'.unranged.ok
      · by_cases hfb : (relayBody env' env'.unranged.body 0 0 0 0).blocked <;>
          simp [createStream, createStreamFuel, h0, hfu, hfb, unrangedCount,
            unrangedCount_append, unrangedCount_relayBody]
      · simp [createStream, createStreamFuel, h0, hfu, unrangedCount]
    · have := chunkLoop_unranged_le_one env' L' (L' + 1) 0 0 0 0
      simpa [createStream, createStreamFuel, h0, unrangedCount] using this

theorem C3_witness :
    (envEmptyFirstChunk.destroyedFrom = none ∧
      0 * CHUNK_SIZE < 1 ∧
      wroteOf (envEmptyFirstChunk.ranged 0) = 0 ∧
      envEmptyFirstChunk.unranged.ok = true) ∧
    (createStream envEmptyFirstChunk 1).status = Status.complete ∧
    unrangedCount (createStream envEmptyFirstChunk 1).trace = 1 ∧
    rangedCount (createStream envEmptyFirstChunk 1).trace = 0 + 1 := by
  have h := C3_empty_chunk_fallback envEmptyFirstChunk 1 0 rfl (by decide)
    (fun j _ => rfl) (fun j hj => absurd hj (by omega)) rfl
  obtain ⟨hst, hun, hrg, _⟩ := h.1 rfl
  exact ⟨⟨rfl, by decide, rfl, rfl⟩, hst, hun, hrg⟩

/-! Exactly-once delivery (C2). -/

theorem sumLens_append (xs ys : List (Nat × Nat)) :
    sumLens (xs ++ ys) = sumLens xs + sumLens ys := by
  simp [sumLens]

theorem chunkLoop_exact (env : Env) (L : Nat) (hnd : env.destroyedFrom = none)
    (hexact : ∀ i, i * CHUNK_SIZE < L →
      (env.ranged i).ok = true ∧ wroteOf (env.ranged i) = rangeSizeAt L i) :
    ∀ fuel i wIdx bw, L - min (i * CHUNK_SIZE) L < fuel →
      (chunkLoop env L fuel (min (i * CHUNK_SIZE) L) i wIdx bw).status = Status.complete ∧
      (chunkLoop env L fuel (min (i * CHUNK_SIZE) L) i wIdx bw).cursor = L ∧
      (chunkLoop env L fuel (min (i * CHUNK_SIZE) L) i wIdx bw).bytes
        = bw + (L - min (i * CHUNK_SIZE) L) ∧
      consecutiveFrom (min (i * CHUNK_SIZE) L)
        (sinkWrites (chunkLoop env L fuel (min (i * CHUNK_SIZE) L) i wIdx bw).trace) = true ∧
      sumLens (sinkWrites (chunkLoop env L fuel (min (i * CHUNK_SIZE) L) i wIdx bw).trace)
        = L - min (i * CHUNK_SIZE) L := by
  intro fuel
  induction fuel with
  | zero => intro i wIdx bw hf; exact absurd hf (by omega)
  | succ fuel ih =>
    intro i wIdx bw hf
    have hC := CHUNK_SIZE_pos
    by_cases h : min (i * CHUNK_SIZE) L < L
    · have hiL : i * CHUNK_SIZE < L := by omega
      have hsmin : min (i * CHUNK_SIZE) L = i * CHUNK_SIZE := by omega
      obtain ⟨hoki, hwz⟩ := hexact i hiL
      have hmul : (i + 1) * CHUNK_SIZE = i * CHUNK_SIZE + CHUNK_SIZE := by ring
      have hrpos : 0 < rangeSizeAt L i := by
        simp only [rangeSizeAt]
        omega
      have hwr : (relayBody env (env.ranged i).body (min (i * CHUNK_SIZE) L) wIdx bw 0).wrote
          = rangeSizeAt L i := by
        rw [relayBody_wrote hnd]; simpa [wroteOf] using hwz
      have hsum : (env.ranged i).body.sum = rangeSizeAt L i := by
        simpa [wroteOf] using hwz
      have hnext : min (min (i * CHUNK_SIZE) L + CHUNK_SIZE - 1) (L - 1) + 1
          = min ((i + 1) * CHUNK_SIZE) L := by
        omega
      have hrec := ih (i + 1)
        (relayBody env (env.ranged i).body (min (i * CHUNK_SIZE) L) wIdx bw 0).wIdx
        (relayBody env (env.ranged i).body (min (i * CHUNK_SIZE) L) wIdx bw 0).bytes
        (by omega)
      obtain ⟨hst, hcur, hby, hcons, hsl⟩ := hrec
      have hbw : (relayBody env (env.ranged i).body (min (i * CHUNK_SIZE) L) wIdx bw 0).bytes
          = bw + rangeSizeAt L i := by
        rw [relayBody_bytes hnd, hsum]
      refine ⟨?_, ?_, ?_, ?_, ?_⟩
      · simp only [chunkLoop, h, if_true, hoki, relayBody_not_blocked hnd,
          Bool.false_eq_true, if_false, hwr]
        rw [if_neg (by omega), hnext]
        exact hst
      · simp only [chunkLoop, h, if_true, hoki, relayBody_not_blocked hnd,
          Bool.false_eq_true, if_false, hwr]
        rw [if_neg (by omega), hnext]
        exact hcur
      · simp only [chunkLoop, h, if_true, hoki, relayBody_not_blocked hnd,
          Bool.false_eq_true, if_false, hwr]
        rw [if_neg (by omega), hnext]
        rw [hby, hbw]
        have hle1 : i * CHUNK_SIZE ≤ min ((i + 1) * CHUNK_SIZE) L := by omega
        have hle2 : min ((i + 1) * CHUNK_SIZE) L ≤ L := by omega
        simp only [rangeSizeAt]
        omega
      · simp only [chunkLoop, h, if_true, hoki, relayBody_not_blocked hnd,
          Bool.false_eq_true, if_false, hwr]
        rw [if_neg (by omega), hnext]
        simp only [sinkWrites, sinkWrites_append, sinkWrites_relayBody hnd]
        refine consecutiveFrom_append (consecutiveFrom_bodyWrites _ _) ?_
        rw [sumLens_bodyWrites, hsum]
        have harg : min (i * CHUNK_SIZE) L + rangeSizeAt L i = min ((i + 1) * CHUNK_SIZE) L := by
          simp only [rangeSizeAt]
          omega
        rw [harg]
        exact hcons
      · simp only [chunkLoop, h, if_true, hoki, relayBody_not_blocked hnd,
          Bool.false_eq_true, if_false, hwr]
        rw [if_neg (by omega), hnext]
        simp only [sinkWrites, sinkWrites_append, sinkWrites_relayBody hnd, sumLens_append]
        rw [sumLens_bodyWrites, hsum, hsl]
        simp only [rangeSizeAt]
        omega
    · have heq : min (i * CHUNK_SIZE) L = L := by omega
      simp only [chunkLoop, h, if_false]
      refine ⟨trivial, heq, by omega, ?_, ?_⟩
      · simp [sinkWrites, consecutiveFrom]
      · simp only [sinkWrites, sumLens, List.map_nil, List.sum_nil]
        omega

/-- C2 as stated fails on the code: when the empty-chunk fallback fires after
a chunk has already been delivered, the fallback re-fetches the whole
resource from byte 0, so a normally-completing transfer of length
L = 5,242,881 delivers 10,485,761 bytes with byte offsets
[0, 5242880) delivered twice — an overlap.  (First ranged chunk delivers its
full 5,242,880 bytes; second returns an empty body; fallback delivers all
5,242,881 bytes again.) -/
theorem C2_counterexample :
    (createStream envEmptySecondChunk 5242881).status = Status.complete ∧
    (createStream envEmptySecondChunk 5242881).bytes ≠ 5242881 ∧
    consecutiveFrom 0 (sinkWrites (createStream envEmptySecondChunk 5242881).trace)
      = false := by
  exact ⟨by decide, by decide, by decide⟩

/-- C2 amended: for every known-length transfer in which each issued ranged
request is answered ok with exactly the bytes of its requested range (the
well-behaved-server condition, under which the empty-chunk fallback can never
fire), normal completion delivers exactly `L` bytes, each byte offset exactly
once, in strictly increasing order with no gaps and no overlaps. -/
theorem C2_amended_exact_delivery (env : Env) (L : Nat) (hL : 0 < L)
    (hnd : env.destroyedFrom = none)
    (hexact : ∀ i, i * CHUNK_SIZE < L →
      (env.ranged i).ok = true ∧ wroteOf (env.ranged i) = rangeSizeAt L i) :
    (createStream env L).status = Status.complete ∧
    (createStream env L).bytes = L ∧
    consecutiveFrom 0 (sinkWrites (createStream env L).trace) = true ∧
    sumLens (sinkWrites (createStream env L).trace) = L := by
  have hne : ¬(L = 0) := by omega
  have h0 : min (0 * CHUNK_SIZE) L = 0 := by simp
  have hmain := chunkLoop_exact env L hnd hexact (L + 1) 0 0 0 (by omega)
  rw [h0] at hmain
  obtain ⟨hst, hcur, hby, hcons, hsl⟩ := hmain
  refine ⟨?_, ?_, ?_, ?_⟩
  · simpa [createStream, createStreamFuel, hne] using hst
  · simpa [createStream, createStreamFuel, hne] using hby
  · simpa [createStream, createStreamFuel, hne, sinkWrites] using hcons
  · simpa [createStream, createStreamFuel, hne, sinkWrites] using hsl

theorem C2_witness :
    ((0 : Nat) < 12582912 ∧ envHealthy12M.destroyedFrom = none ∧
      (∀ i, i * CHUNK_SIZE < 12582912 →
        (envHealthy12M.ranged i).ok = true ∧
        wroteOf (envHealthy12M.ranged i) = rangeSizeAt 12582912 i)) ∧
    (createStream envHealthy12M 12582912).status = Status.complete ∧
    (createStream envHealthy12M 12582912).bytes = 12582912 ∧
    consecutiveFrom 0 (sinkWrites (createStream envHealthy12M 12582912).trace) = true := by
  have hC : CHUNK_SIZE = 5242880 := rfl
  have hexact : ∀ i, i * CHUNK_SIZE < 12582912 →
      (envHealthy12M.ranged i).ok = true ∧
      wroteOf (envHealthy12M.ranged i) = rangeSizeAt 12582912 i := by
    intro i hi
    have hi3 : i < 3 := by rw [hC] at hi; omega
    interval_cases i <;> exact ⟨rfl, by decide⟩
  have h := C2_amended_exact_delivery envHealthy12M 12582912 (by decide) rfl hexact
  exact ⟨⟨by decide, rfl, hexact⟩, h.1, h.2.1, h.2.2.1⟩

/-! Backpressure discipline (C8). -/

theorem relayBody_bp_self (env : Env) :
    ∀ (chunks : List Nat) (off w bw wr : Nat),
      backpressureOk (relayBody env chunks off w bw wr).trace = true := by
  intro chunks
  induction chunks with
  | nil => intro off w bw wr; rfl
  | cons c rest ih =>
    intro off w bw wr
    simp only [relayBody]
    by_cases hd : env.destroyedAt w
    · simp [hd, backpressureOk, drainNext]
    · by_cases hs : env.saturates w <;>
        simp [hd, hs, backpressureOk, drainNext, ih]

theorem relayBody_bp_append (env : Env) :
    ∀ (chunks : List Nat) (off w bw wr : Nat),
      (relayBody env chunks off w bw wr).blocked = false →
      ∀ suf, backpressureOk ((relayBody env chunks off w bw wr).trace ++ suf)
        = backpressureOk suf := by
  intro chunks
  induction chunks with
  | nil => intro off w bw wr _ suf; rfl
  | cons c rest ih =>
    intro off w bw wr hb suf
    by_cases hd : env.destroyedAt w
    · simp [relayBody, hd] at hb
    · simp only [relayBody, hd, Bool.false_eq_true, if_false] at hb ⊢
      by_cases hs : env.saturates w
      · simp only [hs, if_true] at hb ⊢
        simp [backpressureOk, drainNext, ih _ _ _ _ hb suf]
      · simp only [hs, Bool.false_eq_true, if_false] at hb ⊢
        simp [backpressureOk, drainNext, ih _ _ _ _ hb suf]

theorem chunkLoop_bp (env : Env) (L : Nat) :
    ∀ fuel start reqIdx wIdx bw,
      backpressureOk (chunkLoop env L fuel start reqIdx wIdx bw).trace = true := by
  intro fuel
  induction fuel with
  | zero => intro start reqIdx wIdx bw; rfl
  | succ fuel ih =>
    intro start reqIdx wIdx bw
    by_cases h : start < L
    · by_cases hok : (env.ranged reqIdx).ok
      · by_cases hb : (relayBody env (env.ranged reqIdx).body start wIdx bw 0).blocked
        · simp [chunkLoop, h, hok, hb, backpressureOk, drainNext, relayBody_bp_self]
        · have hbf : (relayBody env (env.ranged reqIdx).body start wIdx bw 0).blocked
              = false := by simpa using hb
          by_cases hw : (relayBody env (env.ranged reqIdx).body start wIdx bw 0).wrote = 0
          · by_cases hfu : env.unranged.ok
            · by_cases hfb : (relayBody env env.unranged.body 0
                  (relayBody env (env.ranged reqIdx).body start wIdx bw 0).wIdx
                  (relayBody env (env.ranged reqIdx).body start wIdx bw 0).bytes 0).blocked
              · simp [chunkLoop, h, hok, hbf, hw, hfu, hfb, backpressureOk, drainNext,
                  relayBody_bp_append env _ _ _ _ _ hbf, relayBody_bp_self]
              · have hfbf : (relayBody env env.unranged.body 0
                    (relayBody env (env.ranged reqIdx).body start wIdx bw 0).wIdx
                    (relayBody env (env.ranged reqIdx).body start wIdx bw 0).bytes 0).blocked
                    = false := by simpa using hfb
                simp [chunkLoop, h, hok, hbf, hw, hfu, hfbf, backpressureOk, drainNext,
                  relayBody_bp_append env _ _ _ _ _ hbf,
                  relayBody_bp_append env _ _ _ _ _ hfbf]
            · simp [chunkLoop, h, hok, hbf, hw, hfu, backpressureOk, drainNext,
                relayBody_bp_append env _ _ _ _ _ hbf]
          · simp [chunkLoop, h, hok, hbf, hw, backpressureOk, drainNext,
              relayBody_bp_append env _ _ _ _ _ hbf, ih]
      · simp [chunkLoop, h, hok, backpressureOk, drainNext]
    · simp [chunkLoop, h, backpressureOk, drainNext]

/-- C8: in every run — ranged path, unranged path and fallback path alike —
every write that reports saturation is followed immediately by the drain
resumption before any further network read or request; a write on a destroyed
sink is the last event of the task (its drain never comes and the task stays
suspended), so no read ever follows an unanswered backpressure signal. -/
theorem C8_backpressure (env : Env) (L : Nat) :
    backpressureOk (createStream env L).trace = true := by
  by_cases h0 : L = 0
  · by_cases hfu : env.unranged.ok
    · by_cases hfb : (relayBody env env.unranged.body 0 0 0 0).blocked
      · simp [createStream, createStreamFuel, h0, hfu, hfb, backpressureOk, drainNext,
          relayBody_bp_self]
      · have hfbf : (relayBody env env.unranged.body 0 0 0 0).blocked = false := by
          simpa using hfb
        simp [createStream, createStreamFuel, h0, hfu, hfbf, backpressureOk, drainNext,
          relayBody_bp_append env _ _ _ _ _ hfbf]
    · simp [createStream, createStreamFuel, h0, hfu, backpressureOk, drainNext]
  · simp [createStream, createStreamFuel, h0, backpressureOk, drainNext, chunkLoop_bp]

/-! The no-progress guard (C4). -/

theorem setTimerCount_chunkLoop (env : Env) (L : Nat) :
    ∀ fuel start reqIdx wIdx bw,
      setTimerCount (chunkLoop env L fuel start reqIdx wIdx bw).trace = 0 := by
  intro fuel
  induction fuel with
  | zero => intro start reqIdx wIdx bw; rfl
  | succ fuel ih =>
    intro start reqIdx wIdx bw
    by_cases h : start < L
    · by_cases hok : (env.ranged reqIdx).ok
      · by_cases hb : (relayBody env (env.ranged reqIdx).body start wIdx bw 0).blocked
        · simp [chunkLoop, h, hok, hb, setTimerCount, setTimerCount_relayBody]
        · by_cases hw : (relayBody env (env.ranged reqIdx).body start wIdx bw 0).wrote = 0
          · by_cases hfu : env.unranged.ok
            · by_cases hfb : (relayBody env env.unranged.body 0
                  (relayBody env (env.ranged reqIdx).body start wIdx bw 0).wIdx
                  (relayBody env (env.ranged reqIdx).body start wIdx bw 0).bytes 0).blocked <;>
                simp [chunkLoop, h, hok, hb, hw, hfu, hfb, setTimerCount,
                  setTimerCount_append, setTimerCount_relayBody]
            · simp [chunkLoop, h, hok, hb, hw, hfu, setTimerCount,
                setTimerCount_append, setTimerCount_relayBody]
          · simp [chunkLoop, h, hok, hb, hw, setTimerCount, setTimerCount_append,
              setTimerCount_relayBody, ih]
      · simp [chunkLoop, h, hok, setTimerCount]
    · simp [chunkLoop, h, setTimerCount]

theorem clearTimerCount_chunkLoop (env : Env) (L : Nat) :
    ∀ fuel start reqIdx wIdx bw,
      clearTimerCount (chunkLoop env L fuel start reqIdx wIdx bw).trace
        = (if (chunkLoop env L fuel start reqIdx wIdx bw).status = Status.complete
           then 1 else 0) := by
  intro fuel
  induction fuel with
  | zero => intro start reqIdx wIdx bw; rfl
  | succ fuel ih =>
    intro start reqIdx wIdx bw
    by_cases h : start < L
    · by_cases hok : (env.ranged reqIdx).ok
      · by_cases hb : (relayBody env (env.ranged reqIdx).body start wIdx bw 0).blocked
        · simp [chunkLoop, h, hok, hb, clearTimerCount, clearTimerCount_relayBody]
        · by_cases hw : (relayBody env (env.ranged reqIdx).body start wIdx bw 0).wrote = 0
          · by_cases hfu : env.unranged.ok
            · by_cases hfb : (relayBody env env.unranged.body 0
                  (relayBody env (env.ranged reqIdx).body start wIdx bw 0).wIdx
                  (relayBody env (env.ranged reqIdx).body start wIdx bw 0).bytes 0).blocked <;>
                simp [chunkLoop, h, hok, hb, hw, hfu, hfb, clearTimerCount,
                  clearTimerCount_append, clearTimerCount_relayBody]
            · simp [chunkLoop, h, hok, hb, hw, hfu, clearTimerCount,
                clearTimerCount_append, clearTimerCount_relayBody]
          · simp [chunkLoop, h, hok, hb, hw, clearTimerCount, clearTimerCount_append,
              clearTimerCount_relayBody, ih]
      · simp [chunkLoop, h, hok, clearTimerCount]
    · simp [chunkLoop, h, clearTimerCount]

/-- C4 as stated fails on the code: the no-progress guard is never cancelled
by a byte write — `clearTimeout(noDataTimer)` is reached only on the normal
completion paths.  When the first chunk delivers 5,242,880 bytes and the
second chunk request then fails, the timer is never cleared at all; and even
in the healthy 12 MiB run, after the first successful byte write the next
events are further network requests and reads with no `clearTimeout` before
them. -/
theorem C4_counterexample :
    0 < (createStream envFailSecondChunk 12582912).bytes ∧
    clearTimerCount (createStream envFailSecondChunk 12582912).trace = 0 ∧
    (createStream envFailSecondChunk 12582912).status = Status.failed ∧
    cancelledOnFirstWrite (createStream envHealthy12M 12582912).trace = false :=
  ⟨by decide, by decide, by decide, by decide⟩

/-- C4 amended: a single no-progress timer is armed at open (it is the first
event and no other arming ever happens, so it never re-arms per chunk); it is
cleared exactly on normal completion (and only then — not upon the first byte
write, not on failure); when it fires it destroys the sink, exactly once,
precisely when zero bytes have been written, and it never aborts a transfer
once any byte has been written. -/
theorem C4_amended_guard (env : Env) (L : Nat) :
    (createStream env L).trace.head? = some Event.setTimer ∧
    setTimerCount (createStream env L).trace = 1 ∧
    clearTimerCount (createStream env L).trace
      = (if (createStream env L).status = Status.complete then 1 else 0) ∧
    (∀ d, noDataTimerFire 0 d = (if d then 0 else 1, true)) ∧
    (∀ b d, noDataTimerFire (b + 1) d = (0, false)) ∧
    (∀ b d, (noDataTimerFire b d).1 ≤ 1) := by
  refine ⟨?_, ?_, ?_, ?_, ?_, ?_⟩
  · by_cases h0 : L = 0
    · by_cases hfu : env.unranged.ok
      · by_cases hfb : (relayBody env env.unranged.body 0 0 0 0).blocked <;>
          simp [createStream, createStreamFuel, h0, hfu, hfb]
      · simp [createStream, createStreamFuel, h0, hfu]
    · simp [createStream, createStreamFuel, h0]
  · by_cases h0 : L = 0
    · by_cases hfu : env.unranged.ok
      · by_cases hfb : (relayBody env env.unranged.body 0 0 0 0).blocked <;>
          simp [createStream, createStreamFuel, h0, hfu, hfb, setTimerCount,
            setTimerCount_append, setTimerCount_relayBody]
      · simp [createStream, createStreamFuel, h0, hfu, setTimerCount]
    · simp [createStream, createStreamFuel, h0, setTimerCount, setTimerCount_chunkLoop]
  · by_cases h0 : L = 0
    · by_cases hfu : env.unranged.ok
      · by_cases hfb : (relayBody env env.unranged.body 0 0 0 0).blocked <;>
          simp [createStream, createStreamFuel, h0, hfu, hfb, clearTimerCount,
            clearTimerCount_append, clearTimerCount_relayBody]
      · simp [createStream, createStreamFuel, h0, hfu, clearTimerCount]
    · simp only [createStream, createStreamFuel, h0, if_false, clearTimerCount,
        clearTimerCount_chunkLoop]
  · intro d; cases d <;> rfl
  · intro b d; rfl
  · intro b d
    simp only [noDataTimerFire]
    by_cases hb : b = 0 <;> simp [hb] <;> cases d <;> simp

/-! Sink destruction by the consumer (C7). -/

theorem rangedAfter_nil : ∀ d, rangedAfter d ([] : List Event) = 0 := by
  intro d; cases d <;> rfl

theorem rangedAfter_of_no_ranged :
    ∀ (tr : List Event), rangedRequests tr = [] → ∀ d, rangedAfter d tr = 0 := by
  intro tr
  induction tr with
  | nil => intro _ d; exact rangedAfter_nil d
  | cons e rest ih =>
    intro h d
    cases e with
    | request r =>
      cases r with
      | none =>
        simp only [rangedRequests] at h
        cases d <;> simpa [rangedAfter] using ih h _
      | some v => simp [rangedRequests] at h
    | write a b c =>
      simp only [rangedRequests] at h
      cases d <;> simpa [rangedAfter] using ih h _
    | read n =>
      simp only [rangedRequests] at h
      cases d <;> simpa [rangedAfter] using ih h _
    | drained =>
      simp only [rangedRequests] at h
      cases d <;> simpa [rangedAfter] using ih h _
    | setTimer =>
      simp only [rangedRequests] at h
      cases d <;> simpa [rangedAfter] using ih h _
    | clearTimer =>
      simp only [rangedRequests] at h
      cases d <;> simpa [rangedAfter] using ih h _
    | endSink =>
      simp only [rangedRequests] at h
      cases d <;> simpa [rangedAfter] using ih h _
    | destroySink =>
      simp only [rangedRequests] at h
      cases d <;> simpa [rangedAfter] using ih h _

theorem rangedAfter_append :
    ∀ (t1 : List Event) (d : Nat) (t2 : List Event),
      rangedAfter d (t1 ++ t2)
        = rangedAfter d t1 + rangedAfter (d - writeCount t1) t2 := by
  intro t1
  induction t1 with
  | nil => intro d t2; simp [rangedAfter_nil, writeCount]
  | cons e rest ih =>
    intro d t2
    cases e with
    | request r =>
      cases r with
      | none => cases d <;> simp [rangedAfter, writeCount, ih]
      | some v => cases d <;> simp [rangedAfter, writeCount, ih] <;> omega
    | write a b c =>
      cases d with
      | zero => simp [rangedAfter, writeCount, ih]
      | succ d =>
        have h1 : rangedAfter (d + 1) (Event.write a b c :: (rest ++ t2))
            = rangedAfter d (rest ++ t2) := rfl
        have h2 : rangedAfter (d + 1) (Event.write a b c :: rest)
            = rangedAfter d rest := rfl
        have h3 : writeCount (Event.write a b c :: rest) = writeCount rest + 1 := rfl
        rw [List.cons_append, h1, h2, h3, ih]
        congr 2
        omega
    | read n => cases d <;> simp [rangedAfter, writeCount, ih]
    | drained => cases d <;> simp [rangedAfter, writeCount, ih]
    | setTimer => cases d <;> simp [rangedAfter, writeCount, ih]
    | clearTimer => cases d <;> simp [rangedAfter, writeCount, ih]
    | endSink => cases d <;> simp [rangedAfter, writeCount, ih]
    | destroySink => cases d <;> simp [rangedAfter, writeCount, ih]

theorem rangedAfter_cons_reqSome_le {T : List Event} (hT : rangedRequests T = [])
    (r : Nat × Nat) : ∀ k, rangedAfter k (Event.request (some r) :: T) ≤ 1 := by
  intro k
  cases k with
  | zero => simp [rangedAfter, rangedAfter_of_no_ranged T hT]
  | succ k => simp [rangedAfter, rangedAfter_of_no_ranged T hT]

theorem rangedAfter_setTimer (d : Nat) (T : List Event) :
    rangedAfter d (Event.setTimer :: T) = rangedAfter d T := by
  cases d <;> rfl

theorem relayBody_destroyed_not_blocked {env : Env} {w : Nat}
    (hd : env.destroyedAt w = true) :
    ∀ (chunks : List Nat) (off bw wr : Nat),
      (relayBody env chunks off w bw wr).blocked = false → chunks = [] := by
  intro chunks
  cases chunks with
  | nil => intro off bw wr _; rfl
  | cons c rest => intro off bw wr hb; simp [relayBody, hd] at hb

theorem chunkLoop_rangedAfter (env : Env) (L d : Nat) (hd : env.destroyedFrom = some d) :
    ∀ fuel start reqIdx wIdx bw,
      rangedAfter (d - wIdx) (chunkLoop env L fuel start reqIdx wIdx bw).trace ≤ 1 := by
  intro fuel
  induction fuel with
  | zero => intro start reqIdx wIdx bw; simp [chunkLoop, rangedAfter_nil]
  | succ fuel ih =>
    intro start reqIdx wIdx bw
    by_cases h : start < L
    · by_cases hok : (env.ranged reqIdx).ok
      · by_cases hb : (relayBody env (env.ranged reqIdx).body start wIdx bw 0).blocked
        · have hT : rangedRequests
              (relayBody env (env.ranged reqIdx).body start wIdx bw 0).trace = [] :=
            rangedRequests_relayBody env _ _ _ _ _
          simp only [chunkLoop, h, if_true, hok, if_true, hb, if_true]
          exact rangedAfter_cons_reqSome_le hT _ _
        · have hbf : (relayBody env (env.ranged reqIdx).body start wIdx bw 0).blocked
              = false := by simpa using hb
          by_cases hw : (relayBody env (env.ranged reqIdx).body start wIdx bw 0).wrote = 0
          · by_cases hfu : env.unranged.ok
            · by_cases hfb : (relayBody env env.unranged.body 0
                  (relayBody env (env.ranged reqIdx).body start wIdx bw 0).wIdx
                  (relayBody env (env.ranged reqIdx).body start wIdx bw 0).bytes 0).blocked
              · have hT : rangedRequests
                    ((relayBody env (env.ranged reqIdx).body start wIdx bw 0).trace ++
                      Event.request none ::
                        (relayBody env env.unranged.body 0
                          (relayBody env (env.ranged reqIdx).body start wIdx bw 0).wIdx
                          (relayBody env (env.ranged reqIdx).body start wIdx bw 0).bytes 0).trace)
                    = [] := by
                  simp [rangedRequests_append, rangedRequests_relayBody, rangedRequests]
                simp only [chunkLoop, h, if_true, hok, if_true, hbf, Bool.false_eq_true,
                  if_false, hw, if_true, hfu, hfb]
                exact rangedAfter_cons_reqSome_le hT _ _
              · have hT : rangedRequests
                    ((relayBody env (env.ranged reqIdx).body start wIdx bw 0).trace ++
                      Event.request none ::
                        ((relayBody env env.unranged.body 0
                          (relayBody env (env.ranged reqIdx).body start wIdx bw 0).wIdx
                          (relayBody env (env.ranged reqIdx).body start wIdx bw 0).bytes 0).trace
                          ++ [Event.clearTimer, Event.endSink]))
                    = [] := by
                  simp [rangedRequests_append, rangedRequests_relayBody, rangedRequests]
                have hfbf : (relayBody env env.unranged.body 0
                    (relayBody env (env.ranged reqIdx).body start wIdx bw 0).wIdx
                    (relayBody env (env.ranged reqIdx).body start wIdx bw 0).bytes 0).blocked
                    = false := by simpa using hfb
                simp only [chunkLoop, h, if_true, hok, if_true, hbf, Bool.false_eq_true,
                  if_false, hw, if_true, hfu, hfbf]
                exact rangedAfter_cons_reqSome_le hT _ _
            · have hfu' : env.unranged.ok = false := by simpa using hfu
              have hT : rangedRequests
                  ((relayBody env (env.ranged reqIdx).body start wIdx bw 0).trace ++
                    [Event.request none, Event.destroySink]) = [] := by
                simp [rangedRequests_append, rangedRequests_relayBody, rangedRequests]
              simp only [chunkLoop, h, if_true, hok, if_true, hbf, Bool.false_eq_true,
                if_false, hw, if_true, hfu', rangedRequests]
              exact rangedAfter_cons_reqSome_le hT _ _
          · have hk : ¬(d - wIdx = 0) := by
              intro hk0
              have hdw : env.destroyedAt wIdx = true := by
                simp [Env.destroyedAt, hd]
                omega
              have hempty := relayBody_destroyed_not_blocked hdw
                (env.ranged reqIdx).body start bw 0 hbf
              rw [hempty] at hw
              simp [relayBody] at hw
            obtain ⟨k, hkeq⟩ : ∃ k, d - wIdx = k + 1 := ⟨d - wIdx - 1, by omega⟩
            have hwc := relayBody_wIdx_writeCount env (env.ranged reqIdx).body start wIdx bw 0
            have hrec := ih (min (start + CHUNK_SIZE - 1) (L - 1) + 1) (reqIdx + 1)
              (relayBody env (env.ranged reqIdx).body start wIdx bw 0).wIdx
              (relayBody env (env.ranged reqIdx).body start wIdx bw 0).bytes
            simp only [chunkLoop, h, if_true, hok, if_true, hbf, Bool.false_eq_true,
              if_false, hw]
            rw [hkeq]
            have hcons : rangedAfter (k + 1)
                (Event.request (some (start, min (start + CHUNK_SIZE - 1) (L - 1))) ::
                  ((relayBody env (env.ranged reqIdx).body start wIdx bw 0).trace ++
                    (chunkLoop env L fuel (min (start + CHUNK_SIZE - 1) (L - 1) + 1)
                      (reqIdx + 1)
                      (relayBody env (env.ranged reqIdx).body start wIdx bw 0).wIdx
                      (relayBody env (env.ranged reqIdx).body start wIdx bw 0).bytes).trace))
                = rangedAfter (k + 1)
                  ((relayBody env (env.ranged reqIdx).body start wIdx bw 0).trace ++
                    (chunkLoop env L fuel (min (start + CHUNK_SIZE - 1) (L - 1) + 1)
                      (reqIdx + 1)
                      (relayBody env (env.ranged reqIdx).body start wIdx bw 0).wIdx
                      (relayBody env (env.ranged reqIdx).body start wIdx bw 0).bytes).trace) :=
              rfl
            rw [hcons, rangedAfter_append,
              rangedAfter_of_no_ranged _ (rangedRequests_relayBody env _ _ _ _ _)]
            have harg : k + 1 - writeCount
                (relayBody env (env.ranged reqIdx).body start wIdx bw 0).trace
                = d - (relayBody env (env.ranged reqIdx).body start wIdx bw 0).wIdx := by
              omega
            rw [harg]
            simpa using hrec
      · have hok' : (env.ranged reqIdx).ok = false := by simpa using hok
        simp only [chunkLoop, h, if_true, hok', Bool.false_eq_true, if_false]
        exact rangedAfter_cons_reqSome_le (by simp [rangedRequests]) _ _
    · simp only [chunkLoop, h, if_false]
      rw [rangedAfter_of_no_ranged _ (by simp [rangedRequests])]
      omega

/-- C7 as stated fails on the code: the chunk loop never inspects the sink,
so after the consumer destroys it at a loop boundary (here: after the single
write of chunk 1 of a two-chunk transfer) the relay still issues the next
ranged request — one more chunk request occurs after the destruction point —
and the task is never marked CANCELLED: it ends blocked, suspended forever on
a drain event that cannot arrive (the interpreter has no CANCELLED outcome
because the code has none). -/
theorem C7_counterexample :
    envDestroyedAtBoundary.destroyedFrom = some 1 ∧
    rangedAfter 1 (createStream envDestroyedAtBoundary 10485760).trace = 1 ∧
    (createStream envDestroyedAtBoundary 10485760).status = Status.blocked :=
  ⟨rfl, by decide, by decide⟩

/-- C7 amended: once the consumer destroys the sink (from the `d`-th write
on), the relay issues at most one further ranged chunk request — not zero:
the loop does not check sink state and only stops by blocking at the next
write attempt, whose drain never comes — and no CANCELLED marking exists;
the run ends complete, failed or blocked forever. -/
theorem C7_amended_destroyed_sink (env : Env) (L d : Nat)
    (hd : env.destroyedFrom = some d) :
    rangedAfter d (createStream env L).trace ≤ 1 := by
  by_cases h0 : L = 0
  · by_cases hfu : env.unranged.ok
    · by_cases hfb : (relayBody env env.unranged.body 0 0 0 0).blocked
      · have hT : rangedRequests (createStream env L).trace = [] := by
          simp [createStream, createStreamFuel, h0, hfu, hfb, rangedRequests,
            rangedRequests_append, rangedRequests_relayBody]
        simp [rangedAfter_of_no_ranged _ hT]
      · have hfbf : (relayBody env env.unranged.body 0 0 0 0).blocked = false := by
          simpa using hfb
        have hT : rangedRequests (createStream env L).trace = [] := by
          simp [createStream, createStreamFuel, h0, hfu, hfbf, rangedRequests,
            rangedRequests_append, rangedRequests_relayBody]
        simp [rangedAfter_of_no_ranged _ hT]
    · have hT : rangedRequests (createStream env L).trace = [] := by
        simp [createStream, createStreamFuel, h0, hfu, rangedRequests]
      simp [rangedAfter_of_no_ranged _ hT]
  · have hmain := chunkLoop_rangedAfter env L d hd (L + 1) 0 0 0 0
    simp only [createStream, createStreamFuel, h0, if_false, rangedAfter_setTimer]
    simpa using hmain

theorem C7_witness :
    envDestroyedAtBoundary.destroyedFrom = some 1 ∧
    rangedAfter 1 (createStream envDestroyedAtBoundary 10485760).trace ≤ 1 :=
  ⟨rfl, C7_amended_destroyed_sink envDestroyedAtBoundary 10485760 1 rfl⟩
